import Mathlib

/-!
Verification of the cell-range codec of `gspread_utils` (`src/utils.py`):
the column-index → column-letter conversion `_get_col_letter` and the
range builders `_build_column_keys`, `_build_value_range`,
`_build_col_range`.  The Python functions are embedded shallowly:

* Python `int` becomes `Int` (indices may be negative); list lengths are
  `Nat`.
* `raise ValueError(msg)` becomes `Except.error (Err.InvalidArgument msg)`
  (the spec's single error kind `InvalidArgument`).
* Python string formatting becomes string concatenation of the literal
  pieces, and `str.upper()` is modelled per character for ASCII (the only
  characters the codec is concerned with), matching `Char.toUpper`.
-/

/-- The single error kind of the spec, `InvalidArgument`, carrying the
Python exception message. -/
inductive Err where
  | InvalidArgument (msg : String) : Err
deriving DecidableEq, Repr

/-- Source line 46: `mapping = ('ABCDEFGHIJKLMNOPQRSTUVWXYZ')`. -/
def mapping : List Char :=
  ['A', 'B', 'C', 'D', 'E', 'F', 'G', 'H', 'I', 'J', 'K', 'L', 'M',
   'N', 'O', 'P', 'Q', 'R', 'S', 'T', 'U', 'V', 'W', 'X', 'Y', 'Z']

/-- `mapping[remainder]` of the source; the default is never reached since
the remainder of `divmod(index, 26)` is below 26. -/
def letterAt (r : Nat) : Char := mapping.getD r 'A'

/-- The recursive core of `_get_col_letter` (source lines 50–53) on the
non-negative indices it is actually called at:
`quotient, remainder = divmod(index, 26)`; if `quotient > 0` the result is
`_get_col_letter(quotient - 1) + mapping[remainder]`, else
`mapping[remainder]`.  The result is kept as the list of characters of the
returned string. -/
def colLetterList (n : Nat) : List Char :=
  if 0 < n / 26 then colLetterList (n / 26 - 1) ++ [letterAt (n % 26)]
  else [letterAt (n % 26)]
termination_by n
decreasing_by
  have hle : n / 26 ≤ n := Nat.div_le_self n 26
  omega

/-- Unfolding equation for `colLetterList` (it is defined by well-founded
recursion, so this is the rewrite used to evaluate it). -/
theorem colLetterList_eq (n : Nat) :
    colLetterList n =
      if 0 < n / 26 then colLetterList (n / 26 - 1) ++ [letterAt (n % 26)]
      else [letterAt (n % 26)] := by
  rw [colLetterList]

/-- `_get_col_letter` (source lines 38–53): rejects a negative index with
`ValueError('Index value must be greater than 0')`, otherwise runs the
recursion above. -/
def _get_col_letter (index : Int) : Except Err String :=
  if index < 0 then
    .error (.InvalidArgument "Index value must be greater than 0")
  else
    .ok (String.mk (colLetterList index.toNat))

/-- `_build_column_keys` (source lines 56–68):
`'A1:{col_letter}1'.format(col_letter=_get_col_letter(len(values) - 1))`. -/
def _build_column_keys {α : Type} (values : List α) : Except Err String := do
  let value : Int := (values.length : Int) - 1
  let cell_letter ← _get_col_letter value
  return "A1:" ++ cell_letter ++ "1"

/-- `_build_value_range` (source lines 71–81):
`'A{current_row}:{end_col}{end_row}'` with `end_col =
_get_col_letter(len(values) - 1)` and both rows equal to `current_row`.
No validation is performed on `current_row`. -/
def _build_value_range {α : Type} (values : List α) (current_row : Int) :
    Except Err String := do
  let end_cell_letter ← _get_col_letter ((values.length : Int) - 1)
  return "A" ++ toString current_row ++ ":" ++ end_cell_letter
    ++ toString current_row

/-- Python `str.upper()` restricted to ASCII, applied character by
character. -/
def pyUpper (s : String) : String := String.mk (s.data.map Char.toUpper)

/-- `_build_col_range` (source lines 84–93):
`'{col_letter}2:{col_letter}{row_num}'` with the letter upper-cased and
`row_num = len(values) + 1`.  It performs no validation and cannot fail. -/
def _build_col_range {α : Type} (values : List α) (column_letter : String) :
    String :=
  let end_row_num := values.length + 1
  pyUpper column_letter ++ "2:" ++ pyUpper column_letter
    ++ toString end_row_num

/-- The spec's label well-formedness predicate: matches `^[A-Z]+$`
(non-empty, every character an uppercase ASCII letter). -/
def isValidLabel (s : String) : Bool :=
  !s.data.isEmpty && s.data.all fun c => decide ('A' ≤ c) && decide (c ≤ 'Z')

/-- Spec ordering on labels: first by length, then lexicographically. -/
def lexLt : List Char → List Char → Bool
  | _, [] => false
  | [], _ :: _ => true
  | a :: s, b :: t => a < b || (a == b && lexLt s t)

/-- The bijective-base-26 label ordering of the spec: shorter labels come
first, equal-length labels compare lexicographically. -/
def labelLt (s t : List Char) : Bool :=
  decide (s.length < t.length) || (s.length == t.length && lexLt s t)

-- Basic evaluation checks of the embedding against the source doctests.
example : colLetterList 28 = ['A', 'C'] := by
  rw [colLetterList_eq]
  norm_num
  rw [colLetterList_eq]
  norm_num [letterAt, mapping]

example : _get_col_letter 28 = .ok "AC" := by
  rw [_get_col_letter]
  norm_num
  rw [show ((28 : Int).toNat) = 28 from rfl]
  rw [colLetterList_eq]
  norm_num
  rw [colLetterList_eq]
  norm_num [letterAt, mapping]

/-! ### Helper lemmas about the embedded functions -/

theorem get_col_letter_nonneg (i : Int) (h : 0 ≤ i) :
    _get_col_letter i = .ok (String.mk (colLetterList i.toNat)) := by
  rw [_get_col_letter, if_neg (by omega)]

theorem get_col_letter_neg (i : Int) (h : i < 0) :
    _get_col_letter i =
      .error (.InvalidArgument "Index value must be greater than 0") := by
  rw [_get_col_letter, if_pos h]

theorem build_column_keys_pos {α : Type} (xs : List α) (h : 0 < xs.length) :
    _build_column_keys xs =
      .ok ("A1:" ++ String.mk (colLetterList (xs.length - 1)) ++ "1") := by
  have h1 : (0 : Int) ≤ (xs.length : Int) - 1 := by omega
  have h2 : ((xs.length : Int) - 1).toNat = xs.length - 1 := by omega
  simp [_build_column_keys, get_col_letter_nonneg _ h1, h2]

theorem build_column_keys_nil {α : Type} (xs : List α) (h : xs.length = 0) :
    _build_column_keys xs =
      .error (.InvalidArgument "Index value must be greater than 0") := by
  have h1 : (xs.length : Int) - 1 < 0 := by omega
  simp [_build_column_keys, get_col_letter_neg _ h1]

theorem build_value_range_pos {α : Type} (xs : List α) (row : Int)
    (h : 0 < xs.length) :
    _build_value_range xs row =
      .ok ("A" ++ toString row ++ ":" ++ String.mk (colLetterList (xs.length - 1))
        ++ toString row) := by
  have h1 : (0 : Int) ≤ (xs.length : Int) - 1 := by omega
  have h2 : ((xs.length : Int) - 1).toNat = xs.length - 1 := by omega
  simp [_build_value_range, get_col_letter_nonneg _ h1, h2]

theorem build_value_range_nil {α : Type} (xs : List α) (row : Int)
    (h : xs.length = 0) :
    _build_value_range xs row =
      .error (.InvalidArgument "Index value must be greater than 0") := by
  have h1 : (xs.length : Int) - 1 < 0 := by omega
  simp [_build_value_range, get_col_letter_neg _ h1]

theorem colLetterList_small {n : Nat} (h : n < 26) :
    colLetterList n = [letterAt n] := by
  rw [colLetterList_eq, Nat.div_eq_of_lt h, Nat.mod_eq_of_lt h]
  simp

theorem colLetterList_large {n : Nat} (h : 26 ≤ n) :
    colLetterList n = colLetterList (n / 26 - 1) ++ [letterAt (n % 26)] := by
  rw [colLetterList_eq, if_pos (Nat.div_pos h (by norm_num))]

theorem colLetterList_length_pos (n : Nat) : 0 < (colLetterList n).length := by
  rw [colLetterList_eq]
  split <;> simp

theorem letterAt_lt : ∀ r < 26, ∀ s < 26, r < s → letterAt r < letterAt s := by
  decide

theorem letterAt_range : ∀ r < 26, 'A' ≤ letterAt r ∧ letterAt r ≤ 'Z' := by
  decide

theorem colLetterList_upper (n : Nat) :
    ∀ c ∈ colLetterList n, 'A' ≤ c ∧ c ≤ 'Z' := by
  induction n using Nat.strongRecOn with
  | ind n ih =>
    rw [colLetterList_eq]
    split
    case isTrue h =>
      intro c hc
      rcases List.mem_append.mp hc with h1 | h1
      · have hle : n / 26 ≤ n := Nat.div_le_self n 26
        exact ih _ (by omega) c h1
      · have hc' : c = letterAt (n % 26) := by simpa using h1
        subst hc'
        exact letterAt_range _ (Nat.mod_lt _ (by norm_num))
    case isFalse h =>
      intro c hc
      have hc' : c = letterAt (n % 26) := by simpa using hc
      subst hc'
      exact letterAt_range _ (Nat.mod_lt _ (by norm_num))

theorem lexLt_irrefl (s : List Char) : lexLt s s = false := by
  induction s with
  | nil => rfl
  | cons a s ih => simp [lexLt, ih]

theorem labelLt_irrefl (s : List Char) : labelLt s s = false := by
  simp [labelLt, lexLt_irrefl]

theorem lexLt_append_last {p : List Char} {a b : Char} (h : a < b) :
    lexLt (p ++ [a]) (p ++ [b]) = true := by
  induction p with
  | nil => simp [lexLt, h]
  | cons x p ih => simp [lexLt, ih]

theorem lexLt_append_both {s t : List Char} (a b : Char)
    (hlen : s.length = t.length) (h : lexLt s t = true) :
    lexLt (s ++ [a]) (t ++ [b]) = true := by
  induction s generalizing t with
  | nil =>
    cases t with
    | nil => simp [lexLt] at h
    | cons y t => simp at hlen
  | cons x s ih =>
    cases t with
    | nil => simp at hlen
    | cons y t =>
      simp [lexLt] at h ⊢
      rcases h with h | ⟨h1, h2⟩
      · exact Or.inl h
      · exact Or.inr ⟨h1, ih (by simpa using hlen) h2⟩

theorem labelLt_append {s t : List Char} (a b : Char)
    (h : labelLt s t = true) :
    labelLt (s ++ [a]) (t ++ [b]) = true := by
  simp [labelLt] at h ⊢
  rcases h with h | ⟨h1, h2⟩
  · exact Or.inl h
  · exact Or.inr ⟨h1, lexLt_append_both a b h1 h2⟩

theorem labelLt_append_last {p : List Char} {a b : Char} (h : a < b) :
    labelLt (p ++ [a]) (p ++ [b]) = true := by
  simp [labelLt]
  exact lexLt_append_last h

theorem colLetterList_lt_of_lt :
    ∀ j i : Nat, i < j → labelLt (colLetterList i) (colLetterList j) = true := by
  intro j
  induction j using Nat.strongRecOn with
  | ind j ih =>
    intro i hij
    by_cases hj : j < 26
    · have hi : i < 26 := hij.trans hj
      rw [colLetterList_small hi, colLetterList_small hj]
      simp [labelLt, lexLt]
      exact letterAt_lt i hi j hj hij
    · push_neg at hj
      by_cases hi : i < 26
      · rw [colLetterList_small hi, colLetterList_large hj]
        simp [labelLt]
        have hpos := colLetterList_length_pos (j / 26 - 1)
        exact Or.inl (by omega)
      · push_neg at hi
        rw [colLetterList_large hi, colLetterList_large hj]
        have hq : i / 26 ≤ j / 26 := Nat.div_le_div_right hij.le
        rcases lt_or_eq_of_le hq with hlt | heq
        · have hjle : j / 26 ≤ j := Nat.div_le_self j 26
          have hjj : j / 26 - 1 < j := by omega
          exact labelLt_append _ _ (ih (j / 26 - 1) hjj (i / 26 - 1) (by omega))
        · rw [heq]
          have hr : i % 26 < j % 26 := by omega
          exact labelLt_append_last
            (letterAt_lt _ (Nat.mod_lt i (by norm_num)) _
              (Nat.mod_lt j (by norm_num)) hr)

theorem colLetterList_injective {i j : Nat}
    (h : colLetterList i = colLetterList j) : i = j := by
  rcases Nat.lt_trichotomy i j with hlt | heq | hgt
  · have hmono := colLetterList_lt_of_lt j i hlt
    rw [h, labelLt_irrefl] at hmono
    exact absurd hmono (by simp)
  · exact heq
  · have hmono := colLetterList_lt_of_lt i j hgt
    rw [h, labelLt_irrefl] at hmono
    exact absurd hmono (by simp)

/-! ### Claim theorems -/

/-- C1: `_get_col_letter` maps a zero-based column index to its bijective
base-26 label: 0 → "A", 25 → "Z", 26 → "AA", 27 → "AB", 51 → "AZ",
52 → "BA", 701 → "ZZ", 702 → "AAA". -/
theorem get_col_letter_worked_values :
    _get_col_letter 0 = .ok "A" ∧ _get_col_letter 25 = .ok "Z" ∧
    _get_col_letter 26 = .ok "AA" ∧ _get_col_letter 27 = .ok "AB" ∧
    _get_col_letter 51 = .ok "AZ" ∧ _get_col_letter 52 = .ok "BA" ∧
    _get_col_letter 701 = .ok "ZZ" ∧ _get_col_letter 702 = .ok "AAA" := by
  refine ⟨?_, ?_, ?_, ?_, ?_, ?_, ?_, ?_⟩ <;>
    · rw [get_col_letter_nonneg _ (by norm_num)]
      simp [colLetterList_eq, letterAt, mapping]

/-- C2: on a values list of length `n ≥ 1`, `_build_column_keys` returns
exactly `"A1:" ++ columnLabel (n-1) ++ "1"` (in particular `"A1:AC1"` for
29 values), and on a zero-length list it fails with `InvalidArgument`. -/
theorem build_column_keys_spec :
    (∀ (α : Type) (xs : List α), 1 ≤ xs.length →
        ∃ lbl, _get_col_letter ((xs.length : Int) - 1) = .ok lbl ∧
          _build_column_keys xs = .ok ("A1:" ++ lbl ++ "1")) ∧
    (∀ (α : Type) (xs : List α), xs.length = 0 →
        ∃ msg, _build_column_keys xs = .error (.InvalidArgument msg)) ∧
    _build_column_keys (List.range 29) = .ok "A1:AC1" := by
  refine ⟨?_, ?_, ?_⟩
  · intro α xs h
    have h2 : ((xs.length : Int) - 1).toNat = xs.length - 1 := by omega
    refine ⟨String.mk (colLetterList (xs.length - 1)), ?_,
      build_column_keys_pos xs (by omega)⟩
    rw [get_col_letter_nonneg _ (by omega), h2]
  · intro α xs h
    exact ⟨_, build_column_keys_nil xs h⟩
  · rw [build_column_keys_pos _ (by simp)]
    simp [colLetterList_eq, letterAt, mapping]

theorem build_column_keys_spec_witness :
    (∃ lbl, _get_col_letter ((([0, 1, 2] : List Nat).length : Int) - 1) = .ok lbl ∧
      _build_column_keys ([0, 1, 2] : List Nat) = .ok ("A1:" ++ lbl ++ "1")) ∧
    (∃ msg, _build_column_keys ([] : List Nat) = .error (.InvalidArgument msg)) :=
  ⟨build_column_keys_spec.1 Nat [0, 1, 2] (by decide),
   build_column_keys_spec.2.1 Nat [] rfl⟩

/-- C3 counterexample: `_build_value_range` performs no validation of its
row argument; with three values and row 0 (a row `< 1`) it returns the
range "A0:C0" instead of failing with `InvalidArgument`. -/
theorem build_value_range_no_row_check :
    _build_value_range ([0, 1, 2] : List Nat) 0 = .ok "A0:C0" := by
  rw [build_value_range_pos _ _ (by norm_num)]
  simp [colLetterList_eq, letterAt, mapping]
  decide

/-- C3 amended: on a values list of length `n ≥ 1` and any integer row,
`_build_value_range` returns `"A" ++ row ++ ":" ++ columnLabel (n-1) ++ row`
(e.g. "A5:C5" for 3 values and row 5); it fails with `InvalidArgument`
exactly when the list is empty — the row argument is never validated. -/
theorem build_value_range_spec :
    (∀ (α : Type) (xs : List α) (row : Int), 1 ≤ xs.length →
        ∃ lbl, _get_col_letter ((xs.length : Int) - 1) = .ok lbl ∧
          _build_value_range xs row =
            .ok ("A" ++ toString row ++ ":" ++ lbl ++ toString row)) ∧
    (∀ (α : Type) (xs : List α) (row : Int), xs.length = 0 →
        ∃ msg, _build_value_range xs row = .error (.InvalidArgument msg)) ∧
    _build_value_range ([0, 1, 2] : List Nat) 5 = .ok "A5:C5" := by
  refine ⟨?_, ?_, ?_⟩
  · intro α xs row h
    have h2 : ((xs.length : Int) - 1).toNat = xs.length - 1 := by omega
    refine ⟨String.mk (colLetterList (xs.length - 1)), ?_,
      build_value_range_pos xs row (by omega)⟩
    rw [get_col_letter_nonneg _ (by omega), h2]
  · intro α xs row h
    exact ⟨_, build_value_range_nil xs row h⟩
  · rw [build_value_range_pos _ _ (by norm_num)]
    simp [colLetterList_eq, letterAt, mapping]
    decide

theorem build_value_range_spec_witness :
    (∃ lbl, _get_col_letter ((([7] : List Nat).length : Int) - 1) = .ok lbl ∧
      _build_value_range ([7] : List Nat) 2 =
        .ok ("A" ++ toString (2 : Int) ++ ":" ++ lbl ++ toString (2 : Int))) ∧
    (∃ msg, _build_value_range ([] : List Nat) 2 = .error (.InvalidArgument msg)) :=
  ⟨build_value_range_spec.1 Nat [7] 2 (by decide),
   build_value_range_spec.2.1 Nat [] 2 rfl⟩

/-- C4 counterexample: with zero values `_build_col_range` returns
"A2:A1" (end row `0 + 1 = 1`), not the claimed "A2:A2". -/
theorem build_col_range_zero_counterexample :
    _build_col_range ([] : List Nat) "A" = "A2:A1" ∧
    _build_col_range ([] : List Nat) "A" ≠ "A2:A2" := by
  exact ⟨rfl, by decide⟩

/-- C4 amended: `_build_col_range` accepts a values list of length 0 as
legal input (it performs no validation) and then returns the upper-cased
label followed by "2:" and the label followed by "1" — the format
`{COL}2:{COL}{valueCount+1}` at valueCount = 0, an inverted range — so
`columnRange(0, "A") = "A2:A1"`. -/
theorem build_col_range_zero_values :
    ∀ (α : Type) (xs : List α) (lbl : String), xs.length = 0 →
      _build_col_range xs lbl = pyUpper lbl ++ "2:" ++ pyUpper lbl ++ "1" := by
  intro α xs lbl h
  simp only [_build_col_range, h]
  rfl

theorem build_col_range_zero_values_witness :
    _build_col_range ([] : List Nat) "A" =
      pyUpper "A" ++ "2:" ++ pyUpper "A" ++ "1" :=
  build_col_range_zero_values Nat [] "A" rfl

/-- C5 counterexample: `_build_col_range` never validates its label: on
the malformed label "%" (still malformed after upper-casing) it returns
"%2:%6" for five values instead of failing with `InvalidArgument`. -/
theorem build_col_range_no_label_check :
    isValidLabel (pyUpper "%") = false ∧
    _build_col_range ([0, 1, 2, 3, 4] : List Nat) "%" = "%2:%6" := by
  exact ⟨rfl, rfl⟩

/-- C5 amended: `_build_col_range` case-normalizes the label to uppercase
and returns `{COL}2:{COL}{valueCount+1}` — so `columnRange(5, "b") =
"B2:B6"` — but performs no validation at all: it returns that formatted
string for every label, also labels not matching `^[A-Z]+$`, and never
fails. -/
theorem build_col_range_format :
    (∀ (α : Type) (xs : List α) (lbl : String),
        _build_col_range xs lbl =
          pyUpper lbl ++ "2:" ++ pyUpper lbl ++ toString (xs.length + 1)) ∧
    _build_col_range (List.range 5) "b" = "B2:B6" := by
  exact ⟨fun α xs lbl => rfl, rfl⟩

/-- C6: `_get_col_letter` is strictly monotone on non-negative indices
under the (length, then lexicographic) label ordering, and hence
injective there. -/
theorem get_col_letter_strictMono :
    (∀ i j : Int, 0 ≤ i → i < j →
        ∃ s t, _get_col_letter i = .ok s ∧ _get_col_letter j = .ok t ∧
          labelLt s.data t.data = true) ∧
    (∀ i j : Int, 0 ≤ i → 0 ≤ j →
        _get_col_letter i = _get_col_letter j → i = j) := by
  constructor
  · intro i j hi hij
    refine ⟨_, _, get_col_letter_nonneg i hi, get_col_letter_nonneg j (by omega), ?_⟩
    exact colLetterList_lt_of_lt j.toNat i.toNat (by omega)
  · intro i j hi hj h
    rw [get_col_letter_nonneg i hi, get_col_letter_nonneg j hj] at h
    have h2 : colLetterList i.toNat = colLetterList j.toNat :=
      congrArg String.data (by simpa using h)
    have h3 := colLetterList_injective h2
    omega

theorem get_col_letter_strictMono_witness :
    ∃ s t, _get_col_letter 0 = .ok s ∧ _get_col_letter 1 = .ok t ∧
      labelLt s.data t.data = true :=
  get_col_letter_strictMono.1 0 1 (by norm_num) (by norm_num)

/-- C7: `_get_col_letter` fails with `InvalidArgument` exactly when the
index is negative (in particular at −1), and on every index ≥ 0 it
returns a non-empty string over A–Z (matching `^[A-Z]+$`). -/
theorem get_col_letter_domain :
    (∀ i : Int, (∃ msg, _get_col_letter i = .error (.InvalidArgument msg)) ↔ i < 0) ∧
    (∀ i : Int, 0 ≤ i →
        ∃ s, _get_col_letter i = .ok s ∧ isValidLabel s = true) ∧
    (∃ msg, _get_col_letter (-1) = .error (.InvalidArgument msg)) := by
  have hok : ∀ i : Int, 0 ≤ i →
      ∃ s, _get_col_letter i = .ok s ∧ isValidLabel s = true := by
    intro i h
    refine ⟨String.mk (colLetterList i.toNat), get_col_letter_nonneg i h, ?_⟩
    have hne := colLetterList_length_pos i.toNat
    have hup := colLetterList_upper i.toNat
    simp [isValidLabel]
    constructor
    · intro hnil
      rw [hnil] at hne
      simp at hne
    · intro c hc
      exact hup c hc
  refine ⟨?_, hok, ⟨_, get_col_letter_neg (-1) (by norm_num)⟩⟩
  intro i
  constructor
  · rintro ⟨msg, hmsg⟩
    by_contra hni
    push_neg at hni
    rw [get_col_letter_nonneg i hni] at hmsg
    simp at hmsg
  · intro h
    exact ⟨_, get_col_letter_neg i h⟩

theorem get_col_letter_domain_witness :
    ((∃ msg, _get_col_letter (-2) = .error (.InvalidArgument msg)) ↔ (-2 : Int) < 0) ∧
    (∃ s, _get_col_letter 3 = .ok s ∧ isValidLabel s = true) :=
  ⟨get_col_letter_domain.1 (-2), get_col_letter_domain.2.1 3 (by norm_num)⟩

/-- C8: for every non-empty values list the header range equals the value
range at row 1: `_build_column_keys values = _build_value_range values 1`. -/
theorem header_eq_value_range_at_one :
    ∀ (α : Type) (xs : List α), xs ≠ [] →
      _build_column_keys xs = _build_value_range xs 1 := by
  intro α xs h
  have hl : 0 < xs.length := List.length_pos.mpr h
  rw [build_column_keys_pos xs hl, build_value_range_pos xs 1 hl]
  rfl

theorem header_eq_value_range_at_one_witness :
    _build_column_keys ([9] : List Nat) = _build_value_range ([9] : List Nat) 1 :=
  header_eq_value_range_at_one Nat [9] (by decide)

/-- C9: the recursion of `_get_col_letter` is well-founded: whenever the
recursive branch is taken (`0 < quotient` with `quotient = n / 26`) the
argument `quotient - 1` is strictly below `n`; consequently the function
totally evaluates, returning a result on every index ≥ 0. -/
theorem get_col_letter_terminates :
    (∀ n : Nat, 0 < n / 26 → n / 26 - 1 < n) ∧
    (∀ i : Int, 0 ≤ i → ∃ s, _get_col_letter i = .ok s) := by
  constructor
  · intro n h
    have hle : n / 26 ≤ n := Nat.div_le_self n 26
    omega
  · intro i h
    exact ⟨_, get_col_letter_nonneg i h⟩

theorem get_col_letter_terminates_witness :
    (0 < 27 / 26 → 27 / 26 - 1 < 27) ∧ (∃ s, _get_col_letter 5 = .ok s) :=
  ⟨get_col_letter_terminates.1 27, get_col_letter_terminates.2 5 (by norm_num)⟩

/-- C10: the three range builders depend only on the length of the values
list, never on its contents (two-run noninterference with the elements as
the secret): lists of equal length — even over different element types —
produce identical ranges. -/
theorem builders_depend_only_on_length :
    ∀ (α β : Type) (xs : List α) (ys : List β), xs.length = ys.length →
      _build_column_keys xs = _build_column_keys ys ∧
      (∀ row : Int, _build_value_range xs row = _build_value_range ys row) ∧
      (∀ lbl : String, _build_col_range xs lbl = _build_col_range ys lbl) := by
  intro α β xs ys h
  refine ⟨?_, ?_, ?_⟩
  · simp only [_build_column_keys, h]
  · intro row
    simp only [_build_value_range, h]
  · intro lbl
    simp only [_build_col_range, h]

theorem builders_depend_only_on_length_witness :
    _build_column_keys ([10, 20] : List Nat) =
      _build_column_keys (["x", "y"] : List String) ∧
    _build_value_range ([10, 20] : List Nat) 7 =
      _build_value_range (["x", "y"] : List String) 7 ∧
    _build_col_range ([10, 20] : List Nat) "a" =
      _build_col_range (["x", "y"] : List String) "a" := by
  have h := builders_depend_only_on_length Nat String [10, 20] ["x", "y"] (by decide)
  exact ⟨h.1, h.2.1 7, h.2.2 "a"⟩
